import Mathlib

/-!
Shallow embedding of `aes_ctr_128.c` (EFM32 interrupt-driven AES-CTR-128
pump) and proofs about its claims.

Modelling conventions:
* A 128-bit block is four 32-bit words (`Block`), in buffer word order
  (`w0` at the lowest address).
* `__REV` (byte reversal of one 32-bit word) is `rev32`.
* The AES engine is an opaque transform `t : Block → Block` over the words
  as they cross the hardware DATA register, in FIFO order: the block the
  engine sees is the sequence of the four words written to `AES->DATA`
  (first write = word 0), and reading `AES->DATA` four times yields the
  transform output words in order (first read = word 0).
* The C globals become fields of `AesState`; pointers become word
  addresses into an input memory `mem : Nat → Nat` (read-only) and an
  output memory `outMem : Nat → Nat` held in the state.
* `uint16_t` fields (`numberOfBlocks`, `blockIndex`) are `Nat` reduced
  mod 65536 exactly where the C truncates or wraps.
* Ghost fields `advanceCount` / `submitCount` count invocations of the
  counter-strategy function and 4-word engine submissions; they instrument
  the embedding and affect nothing else.
-/

/-- One 128-bit block as four 32-bit words, `w0` at the lowest word address. -/
structure Block where
  w0 : Nat
  w1 : Nat
  w2 : Nat
  w3 : Nat
  deriving DecidableEq, Repr

/-- `__REV`: byte reversal of a 32-bit word. -/
def rev32 (w : Nat) : Nat :=
  (w % 256) * 2 ^ 24 + (w / 2 ^ 8 % 256) * 2 ^ 16 +
    (w / 2 ^ 16 % 256) * 2 ^ 8 + (w / 2 ^ 24 % 256)

/-- The transform a 4-word block undergoes while crossing the engine
boundary in the C code: the loop runs `i = 3` down to `0`, so the word
order is reversed, and `__REV` is applied to every word. This same shape
occurs in the counter-submission path, the key-load path, and the
output-read path. -/
def revBlock (b : Block) : Block :=
  ⟨rev32 b.w3, rev32 b.w2, rev32 b.w1, rev32 b.w0⟩

/-- Word-wise XOR of two blocks. -/
def xorBlock (a b : Block) : Block :=
  ⟨Nat.xor a.w0 b.w0, Nat.xor a.w1 b.w1, Nat.xor a.w2 b.w2, Nat.xor a.w3 b.w3⟩

/-- Read one 4-word block from a word-addressed memory at address `a`. -/
def readBlock (m : Nat → Nat) (a : Nat) : Block :=
  ⟨m a, m (a + 1), m (a + 2), m (a + 3)⟩

/-- Single-word store into a word-addressed memory. -/
def writeWord (m : Nat → Nat) (a v : Nat) : Nat → Nat :=
  fun x => if x = a then v else m x

/-- The keystream block the handler actually XORs against the input for a
counter value `c`: the counter is pushed through the engine boundary
(`revBlock`), transformed, and every word read back is `__REV`-ed in
reversed order (`revBlock` again). -/
def keystream (t : Block → Block) (c : Block) : Block :=
  revBlock (t (revBlock c))

/-- The C file's static globals, the engine-visible latches, and two ghost
counters. `ctrG`/`ctrFuncG` hold the latched counter buffer contents and
counter-strategy function; `engineKey` is the key as written to
`AES->KEYHA`; `engineData` is the last 4-word block written to
`AES->DATA` (the pending engine input); `ienDone`/`aesCtrl` model the
one-time interrupt-enable and `AES->CTRL` configuration; `sessionActive`
records that the `initDecryption` setup has run at least once. -/
structure AesState where
  numberOfBlocks : Nat
  blockIndex : Nat
  outputDataG : Nat
  inputDataG : Nat
  ctrG : Block
  ctrFuncG : Block → Block
  aesFinished : Bool
  engineKey : Block
  engineData : Block
  ienDone : Bool
  aesCtrl : Bool
  sessionActive : Bool
  advanceCount : Nat
  submitCount : Nat
  outMem : Nat → Nat

/-- `AES_IRQHandler` from `aes_ctr_128.c`, as a state transformer.
`t` is the engine transform, `mem` the input-buffer memory.
If `blockIndex < numberOfBlocks`: advance the counter via the latched
strategy, read the engine output for the previously submitted block and
XOR it word-wise into the output buffer (loop `i = 3` down to `0`, with
`__REV` on every word read), advance both cursors by 4 words, and submit
the freshly advanced counter (again `i = 3` down to `0` with `__REV`).
Otherwise set `aesFinished`. In both cases `blockIndex++` as a `uint16_t`. -/
def AES_IRQHandler (t : Block → Block) (mem : Nat → Nat) (s : AesState) :
    AesState :=
  if s.blockIndex < s.numberOfBlocks then
    let c := s.ctrFuncG s.ctrG
    let b := t s.engineData
    { s with
      ctrG := c
      advanceCount := s.advanceCount + 1
      outMem :=
        writeWord (writeWord (writeWord (writeWord s.outMem
          (s.outputDataG + 3) (Nat.xor (rev32 b.w0) (mem (s.inputDataG + 3))))
          (s.outputDataG + 2) (Nat.xor (rev32 b.w1) (mem (s.inputDataG + 2))))
          (s.outputDataG + 1) (Nat.xor (rev32 b.w2) (mem (s.inputDataG + 1))))
          s.outputDataG (Nat.xor (rev32 b.w3) (mem s.inputDataG))
      outputDataG := s.outputDataG + 4
      inputDataG := s.inputDataG + 4
      engineData := revBlock c
      submitCount := s.submitCount + 1
      blockIndex := (s.blockIndex + 1) % 65536 }
  else
    { s with aesFinished := true, blockIndex := (s.blockIndex + 1) % 65536 }

/-- `AesCtr128` from `aes_ctr_128.c`, as a state transformer. Stores the
buffer bases; if `initDecryption`, latches the counter buffer and strategy,
enables the interrupt, configures the engine and loads the key
(`__REV(key32[i])`, `i = 3` down to `0`); then stores `blockNumber` into
the `uint16_t` `numberOfBlocks` (truncating mod 2^16), resets
`blockIndex` and `aesFinished`, and submits the latched counter to the
engine. -/
def AesCtr128 (s : AesState) (key : Block) (inputData outputData : Nat)
    (blockNumber : Nat) (ctr : Block) (ctrFunc : Block → Block)
    (initDecryption : Bool) : AesState :=
  let s1 := { s with inputDataG := inputData, outputDataG := outputData }
  let s2 :=
    if initDecryption then
      { s1 with
        ctrG := ctr
        ctrFuncG := ctrFunc
        ienDone := true
        aesCtrl := true
        sessionActive := true
        engineKey := revBlock key }
    else s1
  { s2 with
    numberOfBlocks := blockNumber % 65536
    blockIndex := 0
    aesFinished := false
    engineData := revBlock s2.ctrG
    submitCount := s2.submitCount + 1 }

/-- `AesFinished` from `aes_ctr_128.c`. -/
def AesFinished (s : AesState) : Bool :=
  s.aesFinished

/-- State after `k` completion events have been delivered to the handler. -/
def runHandler (t : Block → Block) (mem : Nat → Nat) (s : AesState) :
    Nat → AesState
  | 0 => s
  | k + 1 => AES_IRQHandler t mem (runHandler t mem s k)

/-! Concrete instances used for witnesses and counterexamples. -/

/-- Identity engine transform (the spec's "engine = identity" test double). -/
def t0 : Block → Block := fun b => b

/-- Input memory whose word at address `a` is `a` (distinct, evaluable). -/
def mem0 : Nat → Nat := fun a => a

/-- Identity counter strategy. -/
def f0 : Block → Block := fun c => c

/-- Counter strategy that increments word 0. -/
def f1 : Block → Block := fun c => ⟨c.w0 + 1, c.w1, c.w2, c.w3⟩

/-- The all-zero block. -/
def zeroBlock : Block := ⟨0, 0, 0, 0⟩

/-- A concrete counter block. -/
def ctr1 : Block := ⟨7, 11, 13, 17⟩

/-- A pristine state: no session initialised, everything zero. -/
def initState : AesState where
  numberOfBlocks := 0
  blockIndex := 0
  outputDataG := 0
  inputDataG := 0
  ctrG := zeroBlock
  ctrFuncG := f0
  aesFinished := false
  engineKey := zeroBlock
  engineData := zeroBlock
  ienDone := false
  aesCtrl := false
  sessionActive := false
  advanceCount := 0
  submitCount := 0
  outMem := fun _ => 0

/-! Step lemmas for the handler. -/

theorem writeWord_hit (m : Nat → Nat) (a v : Nat) : writeWord m a v a = v := by
  simp [writeWord]

theorem writeWord_miss (m : Nat → Nat) (a v x : Nat) (h : x ≠ a) :
    writeWord m a v x = m x := by
  simp [writeWord, h]

/-- Processing step: when blocks remain, `AES_IRQHandler` advances the
counter, combines one block into the output, advances cursors, and
re-primes the engine. -/
theorem AES_IRQHandler_proc (t : Block → Block) (mem : Nat → Nat)
    (s : AesState) (h : s.blockIndex < s.numberOfBlocks) :
    AES_IRQHandler t mem s =
      { s with
        ctrG := s.ctrFuncG s.ctrG
        advanceCount := s.advanceCount + 1
        outMem :=
          writeWord (writeWord (writeWord (writeWord s.outMem
            (s.outputDataG + 3)
              (Nat.xor (rev32 (t s.engineData).w0) (mem (s.inputDataG + 3))))
            (s.outputDataG + 2)
              (Nat.xor (rev32 (t s.engineData).w1) (mem (s.inputDataG + 2))))
            (s.outputDataG + 1)
              (Nat.xor (rev32 (t s.engineData).w2) (mem (s.inputDataG + 1))))
            s.outputDataG (Nat.xor (rev32 (t s.engineData).w3) (mem s.inputDataG))
        outputDataG := s.outputDataG + 4
        inputDataG := s.inputDataG + 4
        engineData := revBlock (s.ctrFuncG s.ctrG)
        submitCount := s.submitCount + 1
        blockIndex := (s.blockIndex + 1) % 65536 } := by
  simp [AES_IRQHandler, h]

/-- Final step: when no blocks remain, `AES_IRQHandler` only sets the
finished flag and increments `blockIndex` (as a `uint16_t`). -/
theorem AES_IRQHandler_fin (t : Block → Block) (mem : Nat → Nat)
    (s : AesState) (h : ¬ s.blockIndex < s.numberOfBlocks) :
    AES_IRQHandler t mem s =
      { s with aesFinished := true, blockIndex := (s.blockIndex + 1) % 65536 } := by
  simp [AES_IRQHandler, h]

/-- Full characterisation of the state after `k` completion events, for
`k ≤ numberOfBlocks`, starting from a freshly submitted chunk state: all
fields are determined, the finished flag is still down, the cursors have
advanced `k` blocks, the counter has been advanced `k` times, the engine
holds the `k`-times-advanced counter, the output memory outside the first
`k` written blocks is untouched, and each written block `i` is the
keystream for the counter submitted for block `i` XORed with input
block `i`. -/
theorem runHandler_char (t : Block → Block) (mem : Nat → Nat) (s0 : AesState)
    (h0 : s0.blockIndex = 0) (hN : s0.numberOfBlocks < 65536)
    (hF : s0.aesFinished = false) (hE : s0.engineData = revBlock s0.ctrG) :
    ∀ k, k ≤ s0.numberOfBlocks →
      (runHandler t mem s0 k).numberOfBlocks = s0.numberOfBlocks ∧
      (runHandler t mem s0 k).blockIndex = k ∧
      (runHandler t mem s0 k).aesFinished = false ∧
      (runHandler t mem s0 k).inputDataG = s0.inputDataG + 4 * k ∧
      (runHandler t mem s0 k).outputDataG = s0.outputDataG + 4 * k ∧
      (runHandler t mem s0 k).ctrFuncG = s0.ctrFuncG ∧
      (runHandler t mem s0 k).ctrG = s0.ctrFuncG^[k] s0.ctrG ∧
      (runHandler t mem s0 k).engineData = revBlock (s0.ctrFuncG^[k] s0.ctrG) ∧
      (runHandler t mem s0 k).engineKey = s0.engineKey ∧
      (runHandler t mem s0 k).ienDone = s0.ienDone ∧
      (runHandler t mem s0 k).aesCtrl = s0.aesCtrl ∧
      (runHandler t mem s0 k).sessionActive = s0.sessionActive ∧
      (runHandler t mem s0 k).advanceCount = s0.advanceCount + k ∧
      (runHandler t mem s0 k).submitCount = s0.submitCount + k ∧
      (∀ a, a < s0.outputDataG ∨ s0.outputDataG + 4 * k ≤ a →
        (runHandler t mem s0 k).outMem a = s0.outMem a) ∧
      (∀ i, i < k →
        readBlock (runHandler t mem s0 k).outMem (s0.outputDataG + 4 * i) =
          xorBlock (keystream t (s0.ctrFuncG^[i] s0.ctrG))
            (readBlock mem (s0.inputDataG + 4 * i))) := by
  intro k
  induction k with
  | zero =>
    intro _
    simp [runHandler, h0, hF, hE]
  | succ k ih =>
    intro hk
    obtain ⟨hNb, hBi, hFi, hIn, hOut, hFg, hCg, hEd, hKey, hIen, hCtl, hSes,
      hAdv, hSub, hFrame, hBlocks⟩ := ih (Nat.le_of_succ_le hk)
    have hlt : (runHandler t mem s0 k).blockIndex <
        (runHandler t mem s0 k).numberOfBlocks := by
      rw [hBi, hNb]; omega
    have hrun : runHandler t mem s0 (k + 1) =
        AES_IRQHandler t mem (runHandler t mem s0 k) := rfl
    rw [hrun, AES_IRQHandler_proc t mem _ hlt]
    dsimp only
    rw [hNb, hBi, hFi, hIn, hOut, hFg, hCg, hEd, hKey, hIen, hCtl, hSes,
      hAdv, hSub]
    refine ⟨rfl, ?_, rfl, by ring, by ring, rfl, ?_, ?_, rfl, rfl, rfl, rfl,
      by ring, by ring, ?_, ?_⟩
    · exact Nat.mod_eq_of_lt (by omega)
    · exact (Function.iterate_succ_apply' _ _ _).symm
    · rw [Function.iterate_succ_apply' s0.ctrFuncG k s0.ctrG]
    · intro a ha
      rw [writeWord_miss _ _ _ _ (by omega), writeWord_miss _ _ _ _ (by omega),
        writeWord_miss _ _ _ _ (by omega), writeWord_miss _ _ _ _ (by omega)]
      exact hFrame a (by omega)
    · intro i hi
      obtain hik | rfl := Nat.lt_succ_iff_lt_or_eq.mp hi
      · rw [← hBlocks i hik]
        simp only [readBlock, Block.mk.injEq]
        refine ⟨?_, ?_, ?_, ?_⟩ <;>
          rw [writeWord_miss _ _ _ _ (by omega), writeWord_miss _ _ _ _ (by omega),
            writeWord_miss _ _ _ _ (by omega), writeWord_miss _ _ _ _ (by omega)]
      · simp only [readBlock, xorBlock, keystream, revBlock, Block.mk.injEq]
        refine ⟨?_, ?_, ?_, ?_⟩
        · rw [writeWord_hit]
        · rw [writeWord_miss _ _ _ _ (by omega), writeWord_hit]
        · rw [writeWord_miss _ _ _ _ (by omega),
            writeWord_miss _ _ _ _ (by omega), writeWord_hit]
        · rw [writeWord_miss _ _ _ _ (by omega),
            writeWord_miss _ _ _ _ (by omega),
            writeWord_miss _ _ _ _ (by omega), writeWord_hit]

/-- Projections of the state right after an `AesCtr128` call: `blockNumber`
truncated into the `uint16_t` block count, indices and flag reset, buffer
bases stored, the latched counter submitted to the engine, no
counter-strategy invocation, exactly one engine submission. -/
theorem AesCtr128_post (s : AesState) (key : Block) (inp outp n : Nat)
    (ctr : Block) (f : Block → Block) (init : Bool) :
    (AesCtr128 s key inp outp n ctr f init).numberOfBlocks = n % 65536 ∧
    (AesCtr128 s key inp outp n ctr f init).blockIndex = 0 ∧
    (AesCtr128 s key inp outp n ctr f init).aesFinished = false ∧
    (AesCtr128 s key inp outp n ctr f init).inputDataG = inp ∧
    (AesCtr128 s key inp outp n ctr f init).outputDataG = outp ∧
    (AesCtr128 s key inp outp n ctr f init).engineData =
      revBlock (AesCtr128 s key inp outp n ctr f init).ctrG ∧
    (AesCtr128 s key inp outp n ctr f init).ctrG =
      (if init then ctr else s.ctrG) ∧
    (AesCtr128 s key inp outp n ctr f init).ctrFuncG =
      (if init then f else s.ctrFuncG) ∧
    (AesCtr128 s key inp outp n ctr f init).advanceCount = s.advanceCount ∧
    (AesCtr128 s key inp outp n ctr f init).submitCount = s.submitCount + 1 ∧
    (AesCtr128 s key inp outp n ctr f init).outMem = s.outMem := by
  cases init <;> simp [AesCtr128]

/-- The event that finds `blockIndex = numberOfBlocks` only raises the
finished flag and bumps `blockIndex`. -/
theorem runHandler_last (t : Block → Block) (mem : Nat → Nat) (s0 : AesState)
    (h0 : s0.blockIndex = 0) (hN : s0.numberOfBlocks < 65536)
    (hF : s0.aesFinished = false) (hE : s0.engineData = revBlock s0.ctrG) :
    runHandler t mem s0 (s0.numberOfBlocks + 1) =
      { runHandler t mem s0 s0.numberOfBlocks with
        aesFinished := true
        blockIndex := (s0.numberOfBlocks + 1) % 65536 } := by
  obtain ⟨hNb, hBi, -, -, -, -, -, -, -, -, -, -, -, -, -, -⟩ :=
    runHandler_char t mem s0 h0 hN hF hE s0.numberOfBlocks le_rfl
  have hge : ¬ (runHandler t mem s0 s0.numberOfBlocks).blockIndex <
      (runHandler t mem s0 s0.numberOfBlocks).numberOfBlocks := by
    rw [hBi, hNb]; omega
  have hrun : runHandler t mem s0 (s0.numberOfBlocks + 1) =
      AES_IRQHandler t mem (runHandler t mem s0 s0.numberOfBlocks) := rfl
  rw [hrun, AES_IRQHandler_fin t mem _ hge, hBi]

/-- C1: CTR combine correctness. After the full run of one chunk (the
`blockCount mod 2^16` processing events plus the finishing event)
following one `AesCtr128` call, output block `i` equals the keystream for
the counter value that was submitted for block `i` — the chunk-start
latched counter advanced `i` times by the latched strategy, with the
engine-boundary word/byte reversal applied on submission and on every
word read back from the engine — XORed word-wise (4 x 32-bit words) with
input block `i`. -/
theorem ctr_combine_correct (t : Block → Block) (mem : Nat → Nat)
    (s : AesState) (key : Block) (inp outp n : Nat) (ctr : Block)
    (f : Block → Block) (init : Bool) (i : Nat) (hi : i < n % 65536) :
    readBlock
        (runHandler t mem (AesCtr128 s key inp outp n ctr f init)
          (n % 65536 + 1)).outMem (outp + 4 * i) =
      xorBlock
        (keystream t
          ((AesCtr128 s key inp outp n ctr f init).ctrFuncG^[i]
            (AesCtr128 s key inp outp n ctr f init).ctrG))
        (readBlock mem (inp + 4 * i)) := by
  obtain ⟨pN, pB, pF, pI, pO, pE, -, -, -, -, -⟩ :=
    AesCtr128_post s key inp outp n ctr f init
  have hN : (AesCtr128 s key inp outp n ctr f init).numberOfBlocks < 65536 := by
    rw [pN]; omega
  have hlast := runHandler_last t mem _ pB hN pF pE
  rw [pN] at hlast
  obtain ⟨-, -, -, -, -, -, -, -, -, -, -, -, -, -, -, hBlocks⟩ :=
    runHandler_char t mem _ pB hN pF pE
      (AesCtr128 s key inp outp n ctr f init).numberOfBlocks le_rfl
  rw [pN, pO, pI] at hBlocks
  rw [hlast]
  exact hBlocks i hi

/-- Witness for `ctr_combine_correct`: one-block chunk, identity engine,
word-0-increment counter strategy, concrete buffers. -/
theorem ctr_combine_correct_witness :
    readBlock
        (runHandler t0 mem0 (AesCtr128 initState zeroBlock 0 100 1 ctr1 f1 true)
          (1 % 65536 + 1)).outMem (100 + 4 * 0) =
      xorBlock
        (keystream t0
          ((AesCtr128 initState zeroBlock 0 100 1 ctr1 f1 true).ctrFuncG^[0]
            (AesCtr128 initState zeroBlock 0 100 1 ctr1 f1 true).ctrG))
        (readBlock mem0 (0 + 4 * 0)) :=
  ctr_combine_correct t0 mem0 initState zeroBlock 0 100 1 ctr1 f1 true 0
    (by decide)

example :
    readBlock
        (runHandler t0 mem0 (AesCtr128 initState zeroBlock 0 100 3 ctr1 f1 true)
          (3 % 65536 + 1)).outMem (100 + 4 * 2) =
      xorBlock
        (keystream t0
          ((AesCtr128 initState zeroBlock 0 100 3 ctr1 f1 true).ctrFuncG^[2]
            (AesCtr128 initState zeroBlock 0 100 3 ctr1 f1 true).ctrG))
        (readBlock mem0 (0 + 4 * 2)) := by
  decide

/-- C2 counterexample: for `blockCount = 1`, after exactly one completion
event following one `AesCtr128` call, `AesFinished` is still `false`
(the finished flag needs `blockCount + 1` events), refuting the claim's
conjunction even though `blockIndex = 1` holds. -/
theorem completion_count_counterexample :
    AesFinished (runHandler t0 mem0
        (AesCtr128 initState zeroBlock 0 100 1 ctr1 f1 true) 1) = false ∧
      (runHandler t0 mem0
        (AesCtr128 initState zeroBlock 0 100 1 ctr1 f1 true) 1).blockIndex = 1 := by
  decide

/-- C2 amended: for every `blockCount` with `1 ≤ blockCount` and
`blockCount + 1 < 2^16`, after exactly `blockCount + 1` completion events
following one `AesCtr128` call, `AesFinished` is `true` and `blockIndex`
equals `blockCount + 1`; after only `blockCount` events `AesFinished` is
still `false` (with `blockIndex` already at `blockCount`). -/
theorem completion_count_amended (t : Block → Block) (mem : Nat → Nat)
    (s : AesState) (key : Block) (inp outp n : Nat) (ctr : Block)
    (f : Block → Block) (init : Bool) (h1 : 1 ≤ n) (h2 : n + 1 < 65536) :
    AesFinished (runHandler t mem (AesCtr128 s key inp outp n ctr f init)
        (n + 1)) = true ∧
      (runHandler t mem (AesCtr128 s key inp outp n ctr f init)
        (n + 1)).blockIndex = n + 1 ∧
      AesFinished (runHandler t mem (AesCtr128 s key inp outp n ctr f init)
        n) = false ∧
      (runHandler t mem (AesCtr128 s key inp outp n ctr f init)
        n).blockIndex = n := by
  obtain ⟨pN, pB, pF, pI, pO, pE, -, -, -, -, -⟩ :=
    AesCtr128_post s key inp outp n ctr f init
  have hmod : n % 65536 = n := Nat.mod_eq_of_lt (by omega)
  rw [hmod] at pN
  have hN : (AesCtr128 s key inp outp n ctr f init).numberOfBlocks < 65536 := by
    rw [pN]; omega
  have hlast := runHandler_last t mem _ pB hN pF pE
  rw [pN] at hlast
  obtain ⟨-, cBi, cF, -, -, -, -, -, -, -, -, -, -, -, -, -⟩ :=
    runHandler_char t mem _ pB hN pF pE
      (AesCtr128 s key inp outp n ctr f init).numberOfBlocks le_rfl
  rw [pN] at cBi cF
  refine ⟨?_, ?_, ?_, cBi⟩
  · rw [AesFinished, hlast]
  · rw [hlast]
    exact Nat.mod_eq_of_lt (by omega)
  · rw [AesFinished]
    exact cF

/-- Witness for `completion_count_amended` at `blockCount = 1`. -/
theorem completion_count_amended_witness :
    AesFinished (runHandler t0 mem0
        (AesCtr128 initState zeroBlock 0 100 1 ctr1 f1 true) (1 + 1)) = true ∧
      (runHandler t0 mem0
        (AesCtr128 initState zeroBlock 0 100 1 ctr1 f1 true)
          (1 + 1)).blockIndex = 1 + 1 ∧
      AesFinished (runHandler t0 mem0
        (AesCtr128 initState zeroBlock 0 100 1 ctr1 f1 true) 1) = false ∧
      (runHandler t0 mem0
        (AesCtr128 initState zeroBlock 0 100 1 ctr1 f1 true) 1).blockIndex = 1 :=
  completion_count_amended t0 mem0 initState zeroBlock 0 100 1 ctr1 f1 true
    (by decide) (by decide)

/-- C3: counter monotonicity. Over a full chunk run (`blockCount`
processing events plus the finishing event) following one `AesCtr128`
call with `blockCount < 2^16`, the latched counter-strategy function is
invoked exactly `blockCount` times (the ghost `advanceCount` grows by
exactly `blockCount`, and never exceeds that bound at any point of the
run), and the counter value when the chunk finishes equals `blockCount`
successive applications of the strategy to the counter value at chunk
start. -/
theorem counter_monotonic (t : Block → Block) (mem : Nat → Nat)
    (s : AesState) (key : Block) (inp outp n : Nat) (ctr : Block)
    (f : Block → Block) (init : Bool) (h : n < 65536) :
    (runHandler t mem (AesCtr128 s key inp outp n ctr f init)
        (n + 1)).advanceCount = s.advanceCount + n ∧
      (runHandler t mem (AesCtr128 s key inp outp n ctr f init)
          (n + 1)).ctrG =
        (AesCtr128 s key inp outp n ctr f init).ctrFuncG^[n]
          (AesCtr128 s key inp outp n ctr f init).ctrG ∧
      ∀ k, k ≤ n + 1 →
        (runHandler t mem (AesCtr128 s key inp outp n ctr f init)
          k).advanceCount ≤ s.advanceCount + n := by
  obtain ⟨pN, pB, pF, pI, pO, pE, -, -, pA, -, -⟩ :=
    AesCtr128_post s key inp outp n ctr f init
  have hmod : n % 65536 = n := Nat.mod_eq_of_lt (by omega)
  rw [hmod] at pN
  have hN : (AesCtr128 s key inp outp n ctr f init).numberOfBlocks < 65536 := by
    rw [pN]; omega
  have hlast := runHandler_last t mem _ pB hN pF pE
  rw [pN] at hlast
  obtain ⟨-, -, -, -, -, -, cCg, -, -, -, -, -, cAdv, -, -, -⟩ :=
    runHandler_char t mem _ pB hN pF pE
      (AesCtr128 s key inp outp n ctr f init).numberOfBlocks le_rfl
  rw [pN] at cCg cAdv
  refine ⟨?_, ?_, ?_⟩
  · rw [hlast]
    dsimp only
    rw [cAdv, pA]
  · rw [hlast]
    dsimp only
    exact cCg
  · intro k hk
    obtain hk' | rfl := Nat.lt_succ_iff_lt_or_eq.mp (Nat.lt_succ_of_le hk)
    · obtain ⟨-, -, -, -, -, -, -, -, -, -, -, -, kAdv, -, -, -⟩ :=
        runHandler_char t mem _ pB hN pF pE k (by omega)
      rw [kAdv, pA]
      omega
    · rw [hlast]
      dsimp only
      rw [cAdv, pA]

/-- Witness for `counter_monotonic` at `blockCount = 2`, with the
never-more bound checked after one event. -/
theorem counter_monotonic_witness :
    (runHandler t0 mem0 (AesCtr128 initState zeroBlock 0 100 2 ctr1 f1 true)
        (2 + 1)).advanceCount = initState.advanceCount + 2 ∧
      (runHandler t0 mem0 (AesCtr128 initState zeroBlock 0 100 2 ctr1 f1 true)
          (2 + 1)).ctrG =
        (AesCtr128 initState zeroBlock 0 100 2 ctr1 f1 true).ctrFuncG^[2]
          (AesCtr128 initState zeroBlock 0 100 2 ctr1 f1 true).ctrG ∧
      (runHandler t0 mem0 (AesCtr128 initState zeroBlock 0 100 2 ctr1 f1 true)
        1).advanceCount ≤ initState.advanceCount + 2 :=
  ⟨(counter_monotonic t0 mem0 initState zeroBlock 0 100 2 ctr1 f1 true
      (by decide)).1,
    (counter_monotonic t0 mem0 initState zeroBlock 0 100 2 ctr1 f1 true
      (by decide)).2.1,
    (counter_monotonic t0 mem0 initState zeroBlock 0 100 2 ctr1 f1 true
      (by decide)).2.2 1 (by decide)⟩

/-- C4 counterexample: for a one-block chunk, the state after both
completion events has `blockIndex = 2 > 1 = totalBlocks`, refuting
`blockIndex ≤ totalBlocks` as an invariant of every reachable state. -/
theorem stream_invariant_counterexample :
    ¬ (runHandler t0 mem0
          (AesCtr128 initState zeroBlock 0 100 1 ctr1 f1 true) 2).blockIndex ≤
        (runHandler t0 mem0
          (AesCtr128 initState zeroBlock 0 100 1 ctr1 f1 true) 2).numberOfBlocks := by
  decide

/-- C4 amended: in every state reachable from one `AesCtr128` call with
`blockCount < 2^16` by `k ≤ blockCount + 1` completion events,
`blockIndex ≤ totalBlocks + 1` holds, and while the finished flag is
still down `blockIndex ≤ totalBlocks` holds and both cursors equal their
chunk base address plus `blockIndex` blocks (4 words each). -/
theorem stream_invariant_amended (t : Block → Block) (mem : Nat → Nat)
    (s : AesState) (key : Block) (inp outp n : Nat) (ctr : Block)
    (f : Block → Block) (init : Bool) (h : n < 65536) (k : Nat)
    (hk : k ≤ n + 1) :
    (runHandler t mem (AesCtr128 s key inp outp n ctr f init)
        k).blockIndex ≤ n + 1 ∧
      ((runHandler t mem (AesCtr128 s key inp outp n ctr f init)
          k).aesFinished = false →
        (runHandler t mem (AesCtr128 s key inp outp n ctr f init)
            k).blockIndex ≤ n ∧
          (runHandler t mem (AesCtr128 s key inp outp n ctr f init)
              k).inputDataG =
            inp + 4 * (runHandler t mem (AesCtr128 s key inp outp n ctr f init)
              k).blockIndex ∧
          (runHandler t mem (AesCtr128 s key inp outp n ctr f init)
              k).outputDataG =
            outp + 4 * (runHandler t mem (AesCtr128 s key inp outp n ctr f init)
              k).blockIndex) := by
  obtain ⟨pN, pB, pF, pI, pO, pE, -, -, -, -, -⟩ :=
    AesCtr128_post s key inp outp n ctr f init
  have hmod : n % 65536 = n := Nat.mod_eq_of_lt (by omega)
  rw [hmod] at pN
  have hN : (AesCtr128 s key inp outp n ctr f init).numberOfBlocks < 65536 := by
    rw [pN]; omega
  obtain hk' | rfl := Nat.lt_succ_iff_lt_or_eq.mp (Nat.lt_succ_of_le hk)
  · obtain ⟨-, kBi, kF, kIn, kOut, -, -, -, -, -, -, -, -, -, -, -⟩ :=
      runHandler_char t mem _ pB hN pF pE k (by omega)
    rw [kBi, kF, kIn, kOut, pI, pO]
    exact ⟨by omega, fun _ => ⟨by omega, rfl, rfl⟩⟩
  · have hlast := runHandler_last t mem _ pB hN pF pE
    rw [pN] at hlast
    rw [hlast]
    dsimp only
    refine ⟨Nat.mod_le _ _, ?_⟩
    intro hfalse
    cases hfalse

/-- Witness for `stream_invariant_amended`: one-block chunk observed after
one event (finished still down, cursors one block past the bases). -/
theorem stream_invariant_amended_witness :
    (runHandler t0 mem0 (AesCtr128 initState zeroBlock 0 100 1 ctr1 f1 true)
        1).blockIndex ≤ 1 + 1 ∧
      (runHandler t0 mem0 (AesCtr128 initState zeroBlock 0 100 1 ctr1 f1 true)
          1).blockIndex ≤ 1 ∧
        (runHandler t0 mem0 (AesCtr128 initState zeroBlock 0 100 1 ctr1 f1 true)
            1).inputDataG =
          0 + 4 * (runHandler t0 mem0
            (AesCtr128 initState zeroBlock 0 100 1 ctr1 f1 true) 1).blockIndex ∧
        (runHandler t0 mem0 (AesCtr128 initState zeroBlock 0 100 1 ctr1 f1 true)
            1).outputDataG =
          100 + 4 * (runHandler t0 mem0
            (AesCtr128 initState zeroBlock 0 100 1 ctr1 f1 true) 1).blockIndex :=
  ⟨(stream_invariant_amended t0 mem0 initState zeroBlock 0 100 1 ctr1 f1 true
      (by decide) 1 (by decide)).1,
    (stream_invariant_amended t0 mem0 initState zeroBlock 0 100 1 ctr1 f1 true
      (by decide) 1 (by decide)).2 (by decide)⟩

/-- C5: final-event frame. When the handler fires with
`blockIndex ≥ totalBlocks`, the whole resulting state is the old state
with only `aesFinished` set and `blockIndex` incremented (as a
`uint16_t`); in particular the counter value, the latched strategy, both
cursors, the output memory, and the engine's pending input and submission
count are untouched. -/
theorem final_event_frame (t : Block → Block) (mem : Nat → Nat)
    (s : AesState) (h : s.numberOfBlocks ≤ s.blockIndex) :
    AES_IRQHandler t mem s =
        { s with aesFinished := true, blockIndex := (s.blockIndex + 1) % 65536 } ∧
      (AES_IRQHandler t mem s).ctrG = s.ctrG ∧
      (AES_IRQHandler t mem s).ctrFuncG = s.ctrFuncG ∧
      (AES_IRQHandler t mem s).advanceCount = s.advanceCount ∧
      (AES_IRQHandler t mem s).inputDataG = s.inputDataG ∧
      (AES_IRQHandler t mem s).outputDataG = s.outputDataG ∧
      (AES_IRQHandler t mem s).outMem = s.outMem ∧
      (AES_IRQHandler t mem s).engineData = s.engineData ∧
      (AES_IRQHandler t mem s).submitCount = s.submitCount := by
  have hfin := AES_IRQHandler_fin t mem s (by omega)
  rw [hfin]
  exact ⟨rfl, rfl, rfl, rfl, rfl, rfl, rfl, rfl, rfl⟩

/-- A concrete mid-session state whose chunk is exhausted
(`blockIndex = totalBlocks`). -/
def doneState : AesState :=
  { initState with numberOfBlocks := 3, blockIndex := 3, ctrG := ctr1 }

/-- Witness for `final_event_frame` at `doneState`. -/
theorem final_event_frame_witness :
    AES_IRQHandler t0 mem0 doneState =
        { doneState with
          aesFinished := true
          blockIndex := (doneState.blockIndex + 1) % 65536 } ∧
      (AES_IRQHandler t0 mem0 doneState).ctrG = doneState.ctrG ∧
      (AES_IRQHandler t0 mem0 doneState).ctrFuncG = doneState.ctrFuncG ∧
      (AES_IRQHandler t0 mem0 doneState).advanceCount = doneState.advanceCount ∧
      (AES_IRQHandler t0 mem0 doneState).inputDataG = doneState.inputDataG ∧
      (AES_IRQHandler t0 mem0 doneState).outputDataG = doneState.outputDataG ∧
      (AES_IRQHandler t0 mem0 doneState).outMem = doneState.outMem ∧
      (AES_IRQHandler t0 mem0 doneState).engineData = doneState.engineData ∧
      (AES_IRQHandler t0 mem0 doneState).submitCount = doneState.submitCount :=
  final_event_frame t0 mem0 doneState (by decide)

/-- C6: session-reuse frame. A call to `AesCtr128` with
`initDecryption = false` is exactly: store the two buffer bases, store
the truncated block count, reset `blockIndex` and the finished flag, and
re-submit the currently latched counter to the engine. The key latch,
the counter value, the strategy latch, the interrupt enable and the
engine configuration are all untouched. -/
theorem session_reuse_frame (s : AesState) (key : Block) (inp outp n : Nat)
    (ctr : Block) (f : Block → Block) :
    AesCtr128 s key inp outp n ctr f false =
      { s with
        inputDataG := inp
        outputDataG := outp
        numberOfBlocks := n % 65536
        blockIndex := 0
        aesFinished := false
        engineData := revBlock s.ctrG
        submitCount := s.submitCount + 1 } :=
  rfl

/-- C7: zero-block boundary. `AesCtr128` with `blockCount = 0` is never
rejected (the embedding is total and returns with the finished flag down
and the counter submitted); the single completion event that the
unconditional submission produces then sets `AesFinished` true with zero
counter-strategy invocations and the counter value unchanged. This is
the consistent behaviour for all such calls. -/
theorem zero_block_boundary (t : Block → Block) (mem : Nat → Nat)
    (s : AesState) (key : Block) (inp outp : Nat) (ctr : Block)
    (f : Block → Block) (init : Bool) :
    AesFinished (AesCtr128 s key inp outp 0 ctr f init) = false ∧
      (AesCtr128 s key inp outp 0 ctr f init).submitCount = s.submitCount + 1 ∧
      AesFinished (runHandler t mem (AesCtr128 s key inp outp 0 ctr f init)
        1) = true ∧
      (runHandler t mem (AesCtr128 s key inp outp 0 ctr f init)
        1).advanceCount = s.advanceCount ∧
      (runHandler t mem (AesCtr128 s key inp outp 0 ctr f init)
        1).ctrG = (AesCtr128 s key inp outp 0 ctr f init).ctrG := by
  obtain ⟨pN, pB, pF, -, -, -, -, -, pA, pS, -⟩ :=
    AesCtr128_post s key inp outp 0 ctr f init
  have hfin := AES_IRQHandler_fin t mem (AesCtr128 s key inp outp 0 ctr f init)
    (by rw [pB, pN]; omega)
  have hrun : runHandler t mem (AesCtr128 s key inp outp 0 ctr f init) 1 =
      AES_IRQHandler t mem (AesCtr128 s key inp outp 0 ctr f init) := rfl
  rw [AesFinished, AesFinished, hrun, hfin]
  exact ⟨pF, pS, rfl, pA, rfl⟩

/-- C8 counterexample: `AesCtr128` called with `initDecryption = false` on
a pristine state with no prior session (`sessionActive = false`) does not
fail and does not leave the StreamState unchanged: it proceeds, storing
the block count and the output base. There is no error return in the
code at all. -/
theorem error_contract_counterexample :
    initState.sessionActive = false ∧
      (AesCtr128 initState zeroBlock 0 100 5 ctr1 f1 false).numberOfBlocks = 5 ∧
      initState.numberOfBlocks = 0 ∧
      (AesCtr128 initState zeroBlock 0 100 5 ctr1 f1 false).outputDataG = 100 ∧
      initState.outputDataG = 0 := by
  decide

/-- C8 amended: `AesCtr128` returns `void` and performs no validation, so
it never fails: every call — with any block count however large (there is
no buffer-capacity check) and even with `initDecryption = false` when no
prior session exists — proceeds unconditionally, resetting `blockIndex`
and the finished flag, storing the buffer bases and the mod-2^16
truncated block count, and submitting the latched counter to the
engine. -/
theorem error_contract_amended (s : AesState) (key : Block) (inp outp n : Nat)
    (ctr : Block) (f : Block → Block) (init : Bool)
    (_h : s.sessionActive = false) :
    (AesCtr128 s key inp outp n ctr f init).blockIndex = 0 ∧
      (AesCtr128 s key inp outp n ctr f init).aesFinished = false ∧
      (AesCtr128 s key inp outp n ctr f init).numberOfBlocks = n % 65536 ∧
      (AesCtr128 s key inp outp n ctr f init).inputDataG = inp ∧
      (AesCtr128 s key inp outp n ctr f init).outputDataG = outp ∧
      (AesCtr128 s key inp outp n ctr f init).submitCount = s.submitCount + 1 := by
  obtain ⟨pN, pB, pF, pI, pO, -, -, -, -, pS, -⟩ :=
    AesCtr128_post s key inp outp n ctr f init
  exact ⟨pB, pF, pN, pI, pO, pS⟩

/-- Witness for `error_contract_amended`: no prior session and an
over-large block count, yet the call proceeds. -/
theorem error_contract_amended_witness :
    (AesCtr128 initState zeroBlock 0 100 4294967295 ctr1 f1 false).blockIndex
        = 0 ∧
      (AesCtr128 initState zeroBlock 0 100 4294967295 ctr1 f1
        false).aesFinished = false ∧
      (AesCtr128 initState zeroBlock 0 100 4294967295 ctr1 f1
        false).numberOfBlocks = 4294967295 % 65536 ∧
      (AesCtr128 initState zeroBlock 0 100 4294967295 ctr1 f1
        false).inputDataG = 0 ∧
      (AesCtr128 initState zeroBlock 0 100 4294967295 ctr1 f1
        false).outputDataG = 100 ∧
      (AesCtr128 initState zeroBlock 0 100 4294967295 ctr1 f1
        false).submitCount = initState.submitCount + 1 :=
  error_contract_amended initState zeroBlock 0 100 4294967295 ctr1 f1 false
    (by decide)

/-- C9: implicit block-count truncation. The 32-bit `blockNumber` argument
is stored into the 16-bit `numberOfBlocks` field, so the stored block
count is `blockNumber mod 2^16`; in particular any multiple of 65536 is
stored as 0 and behaves as a zero-block chunk: its one completion event
raises the finished flag with zero counter-strategy invocations. -/
theorem block_count_truncation (t : Block → Block) (mem : Nat → Nat)
    (s : AesState) (key : Block) (inp outp : Nat) (ctr : Block)
    (f : Block → Block) (init : Bool) :
    (∀ n : Nat,
        (AesCtr128 s key inp outp n ctr f init).numberOfBlocks = n % 65536) ∧
      ∀ kk : Nat,
        (AesCtr128 s key inp outp (kk * 65536) ctr f init).numberOfBlocks = 0 ∧
          AesFinished (runHandler t mem
            (AesCtr128 s key inp outp (kk * 65536) ctr f init) 1) = true ∧
          (runHandler t mem (AesCtr128 s key inp outp (kk * 65536) ctr f init)
            1).advanceCount = s.advanceCount := by
  refine ⟨fun n => (AesCtr128_post s key inp outp n ctr f init).1, fun kk => ?_⟩
  obtain ⟨pN, pB, pF, -, -, -, -, -, pA, -, -⟩ :=
    AesCtr128_post s key inp outp (kk * 65536) ctr f init
  rw [Nat.mul_mod_left] at pN
  have hfin := AES_IRQHandler_fin t mem
    (AesCtr128 s key inp outp (kk * 65536) ctr f init) (by rw [pB, pN]; omega)
  have hrun : runHandler t mem
      (AesCtr128 s key inp outp (kk * 65536) ctr f init) 1 =
      AES_IRQHandler t mem
        (AesCtr128 s key inp outp (kk * 65536) ctr f init) := rfl
  rw [AesFinished, hrun, hfin]
  exact ⟨pN, rfl, pA⟩

/-- C10: implicit parameter latching. With `initDecryption = false`, the
`key`, `ctr` and `ctrFunc` arguments of `AesCtr128` are ignored
entirely: the resulting state does not depend on them, and the latched
counter value, counter strategy and engine key are those of the incoming
state (captured at the last `initDecryption = true` call). -/
theorem parameter_latching (s : AesState) (inp outp n : Nat)
    (ka kb ca cb : Block) (fa fb : Block → Block) :
    AesCtr128 s ka inp outp n ca fa false =
        AesCtr128 s kb inp outp n cb fb false ∧
      (AesCtr128 s ka inp outp n ca fa false).ctrG = s.ctrG ∧
      (AesCtr128 s ka inp outp n ca fa false).ctrFuncG = s.ctrFuncG ∧
      (AesCtr128 s ka inp outp n ca fa false).engineKey = s.engineKey ∧
      (AesCtr128 s ka inp outp n ca fa false).engineData = revBlock s.ctrG :=
  ⟨rfl, rfl, rfl, rfl, rfl⟩
